import Mathlib

/-!
Shallow embedding of the activity-classification pipeline of
`src/frontend/js/dashboard.js` (PC-Time-Tracking).

Modelling conventions:
* A timestamp is the number of seconds since local midnight of the selected
  day (`Nat`).  `new Date(string)` on an unparsable ISO string yields an
  Invalid Date whose `getHours()`/`getMinutes()` are `NaN`; we model a
  sample's parsed timestamp as `Option Nat`, `none` standing for Invalid
  Date.  The derived bucket key `Math.floor(NaN)` is `NaN`, which as a JS
  property key is the single string key `"NaN"`; we model bucket keys as
  `Option Nat`, `none` standing for the `"NaN"` key.
* A JS object used as a map is modelled as an association list in insertion
  order with unique keys.
* JS string truthiness (`if (process.category)`, `process.category || "Other"`)
  is false exactly on `null`/`undefined` and the empty string; `truthyCat`
  models this.
* `Math.round(x)` for the non-negative rationals appearing here is
  `⌊x + 1/2⌋`; over naturals `Math.round(100 * a / b)` is
  `(200 * a + b) / (2 * b)` with `Nat` division (the JS computation is in
  binary floating point; we embed the exact-rational idealization).
* `Object.values(timeBlocks)` enumerates the array-index-like keys in
  ascending numeric order followed by the `"NaN"` string key; the subsequent
  `.sort((a, b) => a.startTime - b.startTime)` is a stable sort whose
  comparator returns `NaN` (treated as 0 by the ES SortCompare) whenever an
  Invalid-Date bucket takes part.  Each bucket's `startTime` is the timestamp
  of the first sample that created it, so for same-day data ascending key
  order coincides with ascending `startTime` order and the sort leaves the
  Invalid-Date bucket in place; `orderedBuckets` realizes exactly this order.
-/

namespace PCTT

/-- A process sample as delivered to `generateWorkblocks`
(`{ name, timestamp, category, active_window? }`); `timestamp` is the parsed
time-of-day in seconds, `none` for an unparsable timestamp string. -/
structure Sample where
  name : String
  timestamp : Option Nat
  category : Option String
deriving Repr, DecidableEq

/-- An idle sample (`{ timestamp, is_idle }`). -/
structure IdleSample where
  timestamp : Option Nat
  is_idle : Bool
deriving Repr, DecidableEq

/-- A 5-minute time bucket / merged work block (the same record shape is used
before and after merging in `generateWorkblocks`). -/
structure Bucket where
  startTime : Option Nat
  processes : List Sample
  category : Option String
  duration : Nat
  isIdle : Bool
deriving Repr, DecidableEq

/-- `Math.floor(timestamp.getHours() * 12 + timestamp.getMinutes() / 5)` for a
time-of-day of `t` seconds: `getHours` is `t / 3600`, `getMinutes` is
`t % 3600 / 60`, and flooring the real sum equals adding the `Nat`-division
parts because `getHours() * 12` is an integer. -/
def blockKey (t : Nat) : Nat :=
  t / 3600 * 12 + t % 3600 / 60 / 5

/-- Bucket key of a sample; `none` models the `"NaN"` key produced by an
Invalid Date. -/
def bucketKey (s : Sample) : Option Nat :=
  s.timestamp.map blockKey

/-- JS string truthiness of a `string|null` category: `null` and `""` are
falsy. -/
def truthyCat : Option String → Option String
  | none => none
  | some c => if c = "" then none else some c

/-- The fresh bucket created on first reference of a key
(`{ startTime: new Date(timestamp), processes: [], category: null,
duration: 5 * 60, isIdle: false }`). -/
def newBucket (s : Sample) : Bucket :=
  { startTime := s.timestamp
    processes := []
    category := none
    duration := 5 * 60
    isIdle := false }

/-- Whether `timeBlocks[k]` exists. -/
def hasKey (k : Option Nat) (tb : List (Option Nat × Bucket)) : Bool :=
  tb.any fun p => p.1 = k

/-- `timeBlocks[blockKey].processes.push(process)`. -/
def pushSample (k : Option Nat) (s : Sample) :
    List (Option Nat × Bucket) → List (Option Nat × Bucket)
  | [] => []
  | (k', b) :: rest =>
    if k' = k then (k', { b with processes := b.processes ++ [s] }) :: rest
    else (k', b) :: pushSample k s rest

/-- One iteration of the `processes.forEach` grouping loop: create the bucket
if absent, then push the sample. -/
def addSample (tb : List (Option Nat × Bucket)) (s : Sample) :
    List (Option Nat × Bucket) :=
  pushSample (bucketKey s) s
    (if hasKey (bucketKey s) tb then tb
     else tb ++ [(bucketKey s, newBucket s)])

/-- The `processes.forEach` grouping loop. -/
def buildGo (tb : List (Option Nat × Bucket)) :
    List Sample → List (Option Nat × Bucket)
  | [] => tb
  | s :: rest => buildGo (addSample tb s) rest

/-- Group samples into 5-minute buckets (first phase of
`generateWorkblocks`). -/
def buildBuckets (ps : List Sample) : List (Option Nat × Bucket) :=
  buildGo [] ps

/-- `timeBlocks[blockKey].isIdle = true`. -/
def setIdle (k : Option Nat) :
    List (Option Nat × Bucket) → List (Option Nat × Bucket)
  | [] => []
  | (k', b) :: rest =>
    if k' = k then (k', { b with isIdle := true }) :: rest
    else (k', b) :: setIdle k rest

/-- The `idle.forEach` marking loop: `if (timeBlocks[blockKey] &&
idleEntry.is_idle) timeBlocks[blockKey].isIdle = true`. -/
def markGo (tb : List (Option Nat × Bucket)) :
    List IdleSample → List (Option Nat × Bucket)
  | [] => tb
  | e :: rest =>
    markGo
      (if hasKey (e.timestamp.map blockKey) tb && e.is_idle then
        setIdle (e.timestamp.map blockKey) tb
      else tb) rest

/-- Mark idle buckets (second phase of `generateWorkblocks`). -/
def markIdle (tb : List (Option Nat × Bucket)) (idles : List IdleSample) :
    List (Option Nat × Bucket) :=
  markGo tb idles

/-- `categoryCounts[c] = (categoryCounts[c] || 0) + 1` on an
insertion-ordered association list. -/
def bump (c : String) : List (String × Nat) → List (String × Nat)
  | [] => [(c, 1)]
  | (d, n) :: rest =>
    if d = c then (d, n + 1) :: rest else (d, n) :: bump c rest

/-- The `block.processes.forEach` tally loop; samples whose category is falsy
(`null` or `""`) are skipped (`if (process.category)`).  JS object keys that
are category names are non-integer-like strings, so `Object.entries` later
enumerates them in this insertion order. -/
def tallyGo (acc : List (String × Nat)) : List Sample → List (String × Nat)
  | [] => acc
  | s :: rest =>
    match truthyCat s.category with
    | none => tallyGo acc rest
    | some c => tallyGo (bump c acc) rest

/-- Per-bucket category tally in first-occurrence order. -/
def tally (ps : List Sample) : List (String × Nat) :=
  tallyGo [] ps

/-- The `for (const [category, count] of Object.entries(categoryCounts))`
scan: state `(maxCount, maxCategory)` starting at `(0, null)`, updated on
`count > maxCount`. -/
def maxCatGo (acc : Nat × Option String) :
    List (String × Nat) → Nat × Option String
  | [] => acc
  | (c, n) :: rest =>
    if acc.1 < n then maxCatGo (n, some c) rest else maxCatGo acc rest

/-- The most common category of a tally (`maxCategory`), `none` when no
sample had a truthy category. -/
def maxCategory (counts : List (String × Nat)) : Option String :=
  (maxCatGo (0, none) counts).2

/-- `block.category = maxCategory || "Other"` (a tallied category is a
non-empty string, so the only falsy `maxCategory` is `null`). -/
def dominantCategory (ps : List Sample) : String :=
  (maxCategory (tally ps)).getD "Other"

/-- Classify one bucket (third phase of `generateWorkblocks`). -/
def classify (b : Bucket) : Bucket :=
  { b with category := some (dominantCategory b.processes) }

/-- `Object.values(timeBlocks).forEach(block => ...)` classification pass. -/
def classifyAll (tb : List (Option Nat × Bucket)) :
    List (Option Nat × Bucket) :=
  tb.map fun p => (p.1, classify p.2)

/-- Insertion step of a stable ascending sort on bucket keys. -/
def insertByKey (x : Nat × Bucket) :
    List (Nat × Bucket) → List (Nat × Bucket)
  | [] => [x]
  | y :: ys => if x.1 < y.1 then x :: y :: ys else y :: insertByKey x ys

/-- Stable ascending insertion sort on bucket keys. -/
def sortByKey : List (Nat × Bucket) → List (Nat × Bucket)
  | [] => []
  | x :: xs => insertByKey x (sortByKey xs)

/-- `Object.values(timeBlocks).sort((a, b) => a.startTime - b.startTime)`:
valid buckets in ascending key order (equivalently ascending `startTime`
order, see the header comment), followed by the Invalid-Date (`"NaN"`-keyed)
bucket if present. -/
def orderedBuckets (tb : List (Option Nat × Bucket)) : List Bucket :=
  (sortByKey (tb.filterMap fun p => p.1.map fun k => (k, p.2))).map (·.2)
    ++ tb.filterMap fun p =>
        match p.1 with
        | none => some p.2
        | some _ => none

/-- The merge guard of the `.forEach` merging loop:
`currentBlock.category === block.category && !block.isIdle &&
!currentBlock.isIdle`. -/
def canMerge (cur b : Bucket) : Bool :=
  cur.category == b.category && !b.isIdle && !cur.isIdle

/-- The merging loop with `currentBlock = cur` and the remaining sorted
buckets; the final `if (currentBlock) merged.push(currentBlock)` is the base
case. -/
def mergeGo : Bucket → List Bucket → List Bucket
  | cur, [] => [cur]
  | cur, b :: rest =>
    if canMerge cur b then
      mergeGo
        { cur with
            duration := cur.duration + b.duration
            processes := cur.processes ++ b.processes } rest
    else cur :: mergeGo b rest

/-- Merge adjacent same-category non-idle blocks (fourth phase of
`generateWorkblocks`). -/
def mergeBlocks : List Bucket → List Bucket
  | [] => []
  | b :: rest => mergeGo b rest

/-- The classified, idle-marked, ordered bucket list handed to the merging
loop of `generateWorkblocks`. -/
def bucketStage (ps : List Sample) (idles : List IdleSample) : List Bucket :=
  orderedBuckets (classifyAll (markIdle (buildBuckets ps) idles))

/-- `generateWorkblocks(processes, idle)`. -/
def generateWorkblocks (ps : List Sample) (idles : List IdleSample) :
    List Bucket :=
  mergeBlocks (bucketStage ps idles)

/-- One entry of the category breakdown (`{ name, seconds, percent }`). -/
structure BreakdownEntry where
  name : String
  seconds : Nat
  percent : Nat
deriving Repr, DecidableEq

/-- `categories[category] += 5` on an insertion-ordered association list. -/
def bumpBy (amt : Nat) (c : String) :
    List (String × Nat) → List (String × Nat)
  | [] => [(c, amt)]
  | (d, n) :: rest =>
    if d = c then (d, n + amt) :: rest else (d, n) :: bumpBy amt c rest

/-- The `processes.forEach` loop of `calculateBreakdown`:
`const category = process.category || "Other"; categories[category] += 5`. -/
def breakdownTallyGo (acc : List (String × Nat)) :
    List Sample → List (String × Nat)
  | [] => acc
  | s :: rest =>
    breakdownTallyGo (bumpBy 5 ((truthyCat s.category).getD "Other") acc) rest

/-- Per-category seconds of `calculateBreakdown`. -/
def breakdownTally (ps : List Sample) : List (String × Nat) :=
  breakdownTallyGo [] ps

/-- The `totalTime += 5` accumulator of `calculateBreakdown`. -/
def breakdownTotal (ps : List Sample) : Nat :=
  ps.foldl (fun n _ => n + 5) 0

/-- `Math.round((part / total) * 100)` over exact rationals with
`total > 0`: `⌊100 * part / total + 1 / 2⌋ = (200 * part + total) / (2 * total)`
in `Nat` division. -/
def roundPct (part total : Nat) : Nat :=
  (200 * part + total) / (2 * total)

/-- Insertion step of the stable descending sort
`.sort((a, b) => b.seconds - a.seconds)`. -/
def insertDesc (x : BreakdownEntry) :
    List BreakdownEntry → List BreakdownEntry
  | [] => [x]
  | y :: ys =>
    if y.seconds < x.seconds then x :: y :: ys else y :: insertDesc x ys

/-- Stable descending sort by `seconds`. -/
def sortDesc : List BreakdownEntry → List BreakdownEntry
  | [] => []
  | x :: xs => insertDesc x (sortDesc xs)

/-- `calculateBreakdown(processes)`. -/
def calculateBreakdown (ps : List Sample) : List BreakdownEntry :=
  sortDesc ((breakdownTally ps).map fun p =>
    { name := p.1
      seconds := p.2
      percent := roundPct p.2 (breakdownTotal ps) })

/-- The outputs of `calculateScores` (module-level `workDuration` /
`breakDuration`, the local `focusTime` / `meetingTime` / `totalTime`, and the
three percentage scores). -/
structure Scores where
  workDuration : Nat
  breakDuration : Nat
  focusTime : Nat
  meetingTime : Nat
  totalTime : Nat
  focusScore : Nat
  meetingsScore : Nat
  breaksScore : Nat
deriving Repr, DecidableEq

/-- `const focusCategories = ["Code", "Documentation", "Development", "Design"]`. -/
def focusCategories : List String :=
  ["Code", "Documentation", "Development", "Design"]

/-- `const meetingCategories = ["Meeting", "Call", "Communication"]`. -/
def meetingCategories : List String :=
  ["Meeting", "Call", "Communication"]

/-- `list.includes(block.category)`; `includes` of `null` is false. -/
def catIn (l : List String) : Option String → Bool
  | some c => l.contains c
  | none => false

/-- A conditional duration sum, the shape shared by the four `forEach`
accumulations of `calculateScores`. -/
def sumWhere (p : Bucket → Bool) (blocks : List Bucket) : Nat :=
  blocks.foldl (fun acc b => if p b then acc + b.duration else acc) 0

/-- `calculateScores` over the merged work blocks: work/break split, focus
and meeting time, and the three guarded percentage scores
(`totalTime > 0 ? Math.round(... * 100) : 0`). -/
def calculateScores (blocks : List Bucket) : Scores :=
  let wd := sumWhere (fun b => !b.isIdle) blocks
  let bd := sumWhere (fun b => b.isIdle) blocks
  let ft := sumWhere (fun b => catIn focusCategories b.category && !b.isIdle) blocks
  let mt := sumWhere (fun b => catIn meetingCategories b.category && !b.isIdle) blocks
  let total := wd + bd
  { workDuration := wd
    breakDuration := bd
    focusTime := ft
    meetingTime := mt
    totalTime := total
    focusScore := if 0 < total then roundPct ft total else 0
    meetingsScore := if 0 < total then roundPct mt total else 0
    breaksScore := if 0 < total then roundPct bd total else 0 }

/-- The data of one rendered row of `updateWorkblocks`: start time, category,
`Math.round(block.duration / 60)` minutes, and the
`Math.floor(Math.random() * 20) + 80` productivity score. -/
structure DisplayBlock where
  startTime : Option Nat
  category : Option String
  durationMinutes : Nat
  score : Int
deriving Repr, DecidableEq

/-- One rendered row, given the value `r` returned by its `Math.random()`
call. -/
def displayRow (b : Bucket) (r : ℚ) : DisplayBlock :=
  { startTime := b.startTime
    category := b.category
    durationMinutes := (2 * b.duration + 60) / 120
    score := Int.floor (r * 20) + 80 }

/-- The `cachedData.workblocks.forEach` loop of `updateWorkblocks`: idle
blocks are skipped, and each rendered row consumes the next value of the
`Math.random()` stream `rand`. -/
def updateGo (rand : Nat → ℚ) (i : Nat) : List Bucket → List DisplayBlock
  | [] => []
  | b :: rest =>
    if b.isIdle then updateGo rand i rest
    else displayRow b (rand i) :: updateGo rand (i + 1) rest

/-- `updateWorkblocks()` rendering of the merged blocks, parameterized by the
`Math.random()` stream. -/
def updateWorkblocks (blocks : List Bucket) (rand : Nat → ℚ) :
    List DisplayBlock :=
  updateGo rand 0 blocks

/-- The deterministic fields of a rendered row (everything except the
randomized score). -/
def stripScore (d : DisplayBlock) : Option Nat × Option String × Nat :=
  (d.startTime, d.category, d.durationMinutes)

/-- The bucket key formula collapses to `t / 300`: with `t = 3600 * q + r`,
`r < 3600`, it is `12 * q + r / 300`. -/
theorem blockKey_eq_div (t : Nat) : blockKey t = t / 300 := by
  unfold blockKey
  omega

/-- Claim C5: on empty Sample and IdleSample arrays the pipeline returns an
empty merged-block list, an empty breakdown list, `workDuration = 0`,
`breakDuration = 0`, `totalSeconds = 0` and all three percentage scores 0;
every stage is a total function, so no exception arises. -/
theorem zero_input_guard :
    generateWorkblocks [] [] = []
    ∧ calculateBreakdown [] = []
    ∧ calculateScores (generateWorkblocks [] []) =
        { workDuration := 0, breakDuration := 0, focusTime := 0,
          meetingTime := 0, totalTime := 0, focusScore := 0,
          meetingsScore := 0, breaksScore := 0 } := by
  decide

/-- Claim C7: two samples whose time-of-day lies in the same fixed 5-minute
window `[300k, 300(k+1))` receive the same bucket index
`floor(hour * 12 + minute / 5)`, and a sample in the next window receives the
adjacent index `k + 1`. -/
theorem bucketing_partition (t₁ t₂ t₃ k : Nat)
    (h₁l : 300 * k ≤ t₁) (h₁r : t₁ < 300 * k + 300)
    (h₂l : 300 * k ≤ t₂) (h₂r : t₂ < 300 * k + 300)
    (h₃l : 300 * (k + 1) ≤ t₃) (h₃r : t₃ < 300 * (k + 1) + 300) :
    blockKey t₁ = blockKey t₂ ∧ blockKey t₃ = blockKey t₁ + 1 := by
  rw [blockKey_eq_div, blockKey_eq_div, blockKey_eq_div]
  omega

/-- Witness for claim C7 at the 09:00 window (`k = 108`): 09:00:00 and
09:04:59 share bucket 108, and 09:05:00 lands in bucket 109. -/
theorem bucketing_partition_witness :
    (300 * 108 ≤ 32400 ∧ 32400 < 300 * 108 + 300
      ∧ 300 * 108 ≤ 32699 ∧ 32699 < 300 * 108 + 300
      ∧ 300 * (108 + 1) ≤ 32700 ∧ 32700 < 300 * (108 + 1) + 300)
    ∧ (blockKey 32400 = blockKey 32699
        ∧ blockKey 32700 = blockKey 32400 + 1) :=
  ⟨by decide,
    bucketing_partition 32400 32699 32700 108 (by decide) (by decide)
      (by decide) (by decide) (by decide) (by decide)⟩

/-- A conditional duration sum over a stronger condition is bounded by one
over a weaker condition, for any pair of start accumulators. -/
theorem foldl_sumWhere_le (p q : Bucket → Bool)
    (hpq : ∀ b, p b = true → q b = true) :
    ∀ (blocks : List Bucket) (a₁ a₂ : Nat), a₁ ≤ a₂ →
      blocks.foldl (fun acc b => if p b then acc + b.duration else acc) a₁ ≤
      blocks.foldl (fun acc b => if q b then acc + b.duration else acc) a₂ := by
  intro blocks
  induction blocks with
  | nil => intro a₁ a₂ h; exact h
  | cons b bs ih =>
    intro a₁ a₂ h
    simp only [List.foldl_cons]
    apply ih
    by_cases hp : p b = true
    · rw [if_pos hp, if_pos (hpq b hp)]; omega
    · rw [if_neg hp]
      by_cases hq : q b = true
      · rw [if_pos hq]; omega
      · rw [if_neg hq]; exact h

/-- Monotonicity of `sumWhere` in the condition. -/
theorem sumWhere_mono {p q : Bucket → Bool}
    (hpq : ∀ b, p b = true → q b = true) (blocks : List Bucket) :
    sumWhere p blocks ≤ sumWhere q blocks :=
  foldl_sumWhere_le p q hpq blocks 0 0 (Nat.le_refl 0)

/-- The exact-rational rounding of a fraction `part / total ≤ 1` to a
percentage never exceeds 100. -/
theorem roundPct_le_100 {f t : Nat} (hf : f ≤ t) (ht : 0 < t) :
    roundPct f t ≤ 100 := by
  unfold roundPct
  have h : (200 * f + t) / (2 * t) < 101 := by
    rw [Nat.div_lt_iff_lt_mul (by omega)]
    omega
  omega

theorem calculateScores_workDuration (blocks : List Bucket) :
    (calculateScores blocks).workDuration
      = sumWhere (fun b => !b.isIdle) blocks := rfl

theorem calculateScores_breakDuration (blocks : List Bucket) :
    (calculateScores blocks).breakDuration
      = sumWhere (fun b => b.isIdle) blocks := rfl

theorem calculateScores_totalTime (blocks : List Bucket) :
    (calculateScores blocks).totalTime
      = sumWhere (fun b => !b.isIdle) blocks
        + sumWhere (fun b => b.isIdle) blocks := rfl

theorem calculateScores_focusScore (blocks : List Bucket) :
    (calculateScores blocks).focusScore
      = if 0 < (calculateScores blocks).totalTime then
          roundPct
            (sumWhere (fun b => catIn focusCategories b.category && !b.isIdle)
              blocks)
            ((calculateScores blocks).totalTime)
        else 0 := rfl

theorem calculateScores_meetingsScore (blocks : List Bucket) :
    (calculateScores blocks).meetingsScore
      = if 0 < (calculateScores blocks).totalTime then
          roundPct
            (sumWhere (fun b => catIn meetingCategories b.category && !b.isIdle)
              blocks)
            ((calculateScores blocks).totalTime)
        else 0 := rfl

theorem calculateScores_breaksScore (blocks : List Bucket) :
    (calculateScores blocks).breaksScore
      = if 0 < (calculateScores blocks).totalTime then
          roundPct (sumWhere (fun b => b.isIdle) blocks)
            ((calculateScores blocks).totalTime)
        else 0 := rfl

/-- Claim C6: `totalSeconds` is `workDuration + breakDuration`, each of the
three percentage scores is the guarded rounding
`totalSeconds > 0 ? round(100 * part / totalSeconds) : 0` and hence lies
between 0 and 100 inclusive (the lower bound is inherent to `Nat`), and when
`totalSeconds = 0` all three scores are 0 with no division performed. -/
theorem score_bounds (blocks : List Bucket) :
    (calculateScores blocks).totalTime
        = (calculateScores blocks).workDuration
          + (calculateScores blocks).breakDuration
    ∧ (calculateScores blocks).focusScore ≤ 100
    ∧ (calculateScores blocks).meetingsScore ≤ 100
    ∧ (calculateScores blocks).breaksScore ≤ 100
    ∧ ((calculateScores blocks).totalTime = 0 →
        (calculateScores blocks).focusScore = 0
        ∧ (calculateScores blocks).meetingsScore = 0
        ∧ (calculateScores blocks).breaksScore = 0) := by
  have hfw :
      sumWhere (fun b => catIn focusCategories b.category && !b.isIdle) blocks
        ≤ sumWhere (fun b => !b.isIdle) blocks :=
    sumWhere_mono (fun b hb => (Bool.and_eq_true _ _ |>.mp hb).2) blocks
  have hmw :
      sumWhere (fun b => catIn meetingCategories b.category && !b.isIdle) blocks
        ≤ sumWhere (fun b => !b.isIdle) blocks :=
    sumWhere_mono (fun b hb => (Bool.and_eq_true _ _ |>.mp hb).2) blocks
  have htot := calculateScores_totalTime blocks
  refine ⟨rfl, ?_, ?_, ?_, ?_⟩
  · rw [calculateScores_focusScore]
    by_cases h : 0 < (calculateScores blocks).totalTime
    · rw [if_pos h]
      exact roundPct_le_100 (by rw [htot]; omega) h
    · rw [if_neg h]; omega
  · rw [calculateScores_meetingsScore]
    by_cases h : 0 < (calculateScores blocks).totalTime
    · rw [if_pos h]
      exact roundPct_le_100 (by rw [htot]; omega) h
    · rw [if_neg h]; omega
  · rw [calculateScores_breaksScore]
    by_cases h : 0 < (calculateScores blocks).totalTime
    · rw [if_pos h]
      exact roundPct_le_100 (by rw [htot]; omega) h
    · rw [if_neg h]; omega
  · intro h0
    rw [calculateScores_focusScore, calculateScores_meetingsScore,
      calculateScores_breaksScore, h0]
    simp

/-- The separation relation between adjacent merged blocks: one of the two is
idle or their categories differ. -/
def sepRel (a b : Bucket) : Prop :=
  a.isIdle = true ∨ b.isIdle = true ∨ a.category ≠ b.category

/-- A true merge guard forces equal categories and both blocks non-idle. -/
theorem canMerge_eq_true {cur b : Bucket} (h : canMerge cur b = true) :
    cur.category = b.category ∧ b.isIdle = false ∧ cur.isIdle = false := by
  simpa [canMerge, Bool.and_eq_true, Bool.not_eq_true', and_assoc] using h

/-- A failed merge guard means differing categories or an idle side. -/
theorem canMerge_ne_true {cur b : Bucket} (h : ¬ canMerge cur b = true) :
    cur.category ≠ b.category ∨ b.isIdle = true ∨ cur.isIdle = true := by
  by_contra hc
  push_neg at hc
  obtain ⟨h₁, h₂, h₃⟩ := hc
  simp only [ne_eq, Bool.not_eq_true] at h₂ h₃
  exact h (by simp [canMerge, h₁, h₂, h₃])

/-- The merging loop always emits a first block, and that block inherits the
category and idle flag of the running block it started from. -/
theorem mergeGo_head : ∀ (l : List Bucket) (cur : Bucket),
    ∃ b t, mergeGo cur l = b :: t
      ∧ b.category = cur.category ∧ b.isIdle = cur.isIdle := by
  intro l
  induction l with
  | nil => exact fun cur => ⟨cur, [], rfl, rfl, rfl⟩
  | cons x rest ih =>
    intro cur
    by_cases h : canMerge cur x = true
    · simp only [mergeGo, if_pos h]
      obtain ⟨b, t, he, hc, hi⟩ := ih _
      exact ⟨b, t, he, hc, hi⟩
    · simp only [mergeGo, if_neg h]
      exact ⟨cur, mergeGo x rest, rfl, rfl, rfl⟩

/-- Every output of the merging loop satisfies the adjacent-block separation
property. -/
theorem mergeGo_chain : ∀ (l : List Bucket) (cur : Bucket),
    List.Chain' sepRel (mergeGo cur l) := by
  intro l
  induction l with
  | nil => intro cur; simp [mergeGo]
  | cons x rest ih =>
    intro cur
    by_cases h : canMerge cur x = true
    · simp only [mergeGo, if_pos h]; exact ih _
    · simp only [mergeGo, if_neg h]
      rw [List.chain'_cons']
      refine ⟨?_, ih x⟩
      intro y hy
      obtain ⟨b, t, he, hc, hi⟩ := mergeGo_head rest x
      rw [he] at hy
      simp only [List.head?_cons, Option.mem_def, Option.some.injEq] at hy
      subst hy
      rcases canMerge_ne_true h with h₁ | h₂ | h₃
      · exact Or.inr (Or.inr (by rw [hc]; exact h₁))
      · exact Or.inr (Or.inl (by rw [hi]; exact h₂))
      · exact Or.inl h₃

/-- `pushSample` only appends to the `processes` field of one existing
bucket, so it preserves the fixed 300-second duration of every bucket. -/
theorem pushSample_duration (k : Option Nat) (s : Sample) :
    ∀ (tb : List (Option Nat × Bucket)),
      (∀ p ∈ tb, (p.2 : Bucket).duration = 300) →
      ∀ p ∈ pushSample k s tb, (p.2 : Bucket).duration = 300 := by
  intro tb
  induction tb with
  | nil => intro _ p hp; simp [pushSample] at hp
  | cons q rest ih =>
    intro hinv p hp
    obtain ⟨k', b⟩ := q
    simp only [pushSample] at hp
    by_cases hk : k' = k
    · rw [if_pos hk] at hp
      rcases List.mem_cons.mp hp with rfl | hp'
      · exact hinv (k', b) (List.mem_cons_self _ _)
      · exact hinv p (List.mem_cons_of_mem _ hp')
    · rw [if_neg hk] at hp
      rcases List.mem_cons.mp hp with rfl | hp'
      · exact hinv (k', b) (List.mem_cons_self _ _)
      · exact ih (fun r hr => hinv r (List.mem_cons_of_mem _ hr)) p hp'

/-- `addSample` preserves the fixed bucket duration (a fresh bucket is
created with `duration = 5 * 60`). -/
theorem addSample_duration (s : Sample) (tb : List (Option Nat × Bucket))
    (hinv : ∀ p ∈ tb, (p.2 : Bucket).duration = 300) :
    ∀ p ∈ addSample tb s, (p.2 : Bucket).duration = 300 := by
  unfold addSample
  apply pushSample_duration
  by_cases h : hasKey (bucketKey s) tb = true
  · rw [if_pos h]; exact hinv
  · rw [if_neg h]
    intro p hp
    rcases List.mem_append.mp hp with hp' | hp'
    · exact hinv p hp'
    · simp only [List.mem_singleton] at hp'
      subst hp'
      rfl

/-- The grouping loop produces only 300-second buckets. -/
theorem buildGo_duration : ∀ (ps : List Sample) (tb : List (Option Nat × Bucket)),
    (∀ p ∈ tb, (p.2 : Bucket).duration = 300) →
    ∀ p ∈ buildGo tb ps, (p.2 : Bucket).duration = 300 := by
  intro ps
  induction ps with
  | nil => intro tb h; exact h
  | cons s rest ih =>
    intro tb hinv
    simp only [buildGo]
    exact ih _ (addSample_duration s tb hinv)

/-- `setIdle` only flips the idle flag, preserving durations. -/
theorem setIdle_duration (k : Option Nat) :
    ∀ (tb : List (Option Nat × Bucket)),
      (∀ p ∈ tb, (p.2 : Bucket).duration = 300) →
      ∀ p ∈ setIdle k tb, (p.2 : Bucket).duration = 300 := by
  intro tb
  induction tb with
  | nil => intro _ p hp; simp [setIdle] at hp
  | cons q rest ih =>
    intro hinv p hp
    obtain ⟨k', b⟩ := q
    simp only [setIdle] at hp
    by_cases hk : k' = k
    · rw [if_pos hk] at hp
      rcases List.mem_cons.mp hp with rfl | hp'
      · exact hinv (k', b) (List.mem_cons_self _ _)
      · exact hinv p (List.mem_cons_of_mem _ hp')
    · rw [if_neg hk] at hp
      rcases List.mem_cons.mp hp with rfl | hp'
      · exact hinv (k', b) (List.mem_cons_self _ _)
      · exact ih (fun r hr => hinv r (List.mem_cons_of_mem _ hr)) p hp'

/-- The idle-marking loop preserves durations. -/
theorem markGo_duration : ∀ (idles : List IdleSample) (tb : List (Option Nat × Bucket)),
    (∀ p ∈ tb, (p.2 : Bucket).duration = 300) →
    ∀ p ∈ markGo tb idles, (p.2 : Bucket).duration = 300 := by
  intro idles
  induction idles with
  | nil => intro tb h; exact h
  | cons e rest ih =>
    intro tb hinv
    simp only [markGo]
    apply ih
    by_cases h : (hasKey (e.timestamp.map blockKey) tb && e.is_idle) = true
    · rw [if_pos h]; exact setIdle_duration _ tb hinv
    · rw [if_neg h]; exact hinv

/-- Classification only sets the category field, preserving durations. -/
theorem classifyAll_duration (tb : List (Option Nat × Bucket))
    (hinv : ∀ p ∈ tb, (p.2 : Bucket).duration = 300) :
    ∀ p ∈ classifyAll tb, (p.2 : Bucket).duration = 300 := by
  intro p hp
  simp only [classifyAll, List.mem_map] at hp
  obtain ⟨q, hq, rfl⟩ := hp
  exact hinv q hq

/-- Membership through the sorting insertion step. -/
theorem mem_insertByKey {x y : Nat × Bucket} :
    ∀ {l : List (Nat × Bucket)}, y ∈ insertByKey x l → y = x ∨ y ∈ l := by
  intro l
  induction l with
  | nil => intro h; simp only [insertByKey, List.mem_singleton] at h; exact Or.inl h
  | cons z zs ih =>
    intro h
    simp only [insertByKey] at h
    by_cases hlt : x.1 < z.1
    · rw [if_pos hlt] at h
      rcases List.mem_cons.mp h with rfl | h'
      · exact Or.inl rfl
      · exact Or.inr h'
    · rw [if_neg hlt] at h
      rcases List.mem_cons.mp h with rfl | h'
      · exact Or.inr (List.mem_cons_self _ _)
      · rcases ih h' with h₁ | h₂
        · exact Or.inl h₁
        · exact Or.inr (List.mem_cons_of_mem _ h₂)

/-- Membership through the key sort. -/
theorem mem_sortByKey {y : Nat × Bucket} :
    ∀ {l : List (Nat × Bucket)}, y ∈ sortByKey l → y ∈ l := by
  intro l
  induction l with
  | nil => intro h; simp [sortByKey] at h
  | cons x xs ih =>
    intro h
    simp only [sortByKey] at h
    rcases mem_insertByKey h with rfl | h'
    · exact List.mem_cons_self _ _
    · exact List.mem_cons_of_mem _ (ih h')

/-- Every bucket enumerated by `orderedBuckets` comes from the underlying
keyed map. -/
theorem mem_orderedBuckets {b : Bucket} {tb : List (Option Nat × Bucket)}
    (h : b ∈ orderedBuckets tb) : ∃ k, (k, b) ∈ tb := by
  unfold orderedBuckets at h
  rcases List.mem_append.mp h with h' | h'
  · simp only [List.mem_map] at h'
    obtain ⟨p, hp, rfl⟩ := h'
    have hp' := mem_sortByKey hp
    simp only [List.mem_filterMap] at hp'
    obtain ⟨⟨kq, bq⟩, hq, hmap⟩ := hp'
    cases kq with
    | none => simp at hmap
    | some k =>
      simp only [Option.map_some', Option.some.injEq] at hmap
      subst hmap
      exact ⟨some k, hq⟩
  · simp only [List.mem_filterMap] at h'
    obtain ⟨⟨kq, bq⟩, hq, hmatch⟩ := h'
    cases kq with
    | none =>
      simp only [Option.some.injEq] at hmatch
      subst hmatch
      exact ⟨none, hq⟩
    | some k => simp at hmatch

/-- Every bucket handed to the merging loop has the fixed 300-second
duration. -/
theorem stage_duration (ps : List Sample) (idles : List IdleSample)
    (b : Bucket) (h : b ∈ bucketStage ps idles) : b.duration = 300 := by
  unfold bucketStage markIdle buildBuckets at h
  obtain ⟨k, hk⟩ := mem_orderedBuckets h
  exact classifyAll_duration _
    (markGo_duration idles _
      (buildGo_duration ps [] (by intro p hp; simp at hp)))
    (k, b) hk

/-- An idle running block is emitted unchanged by the merging loop: the merge
guard requires both sides non-idle. -/
theorem mergeGo_mem_idle : ∀ (l : List Bucket) (cur b : Bucket),
    b.isIdle = true → b ∈ cur :: l → b ∈ mergeGo cur l := by
  intro l
  induction l with
  | nil =>
    intro cur b _ hmem
    simpa [mergeGo] using hmem
  | cons x rest ih =>
    intro cur b hb hmem
    by_cases h : canMerge cur x = true
    · simp only [mergeGo, if_pos h]
      obtain ⟨hcat, hxi, hci⟩ := canMerge_eq_true h
      apply ih _ b hb
      rcases List.mem_cons.mp hmem with rfl | hmem'
      · rw [hci] at hb; cases hb
      · rcases List.mem_cons.mp hmem' with rfl | hmem''
        · rw [hxi] at hb; cases hb
        · exact List.mem_cons_of_mem _ hmem''
    · simp only [mergeGo, if_neg h]
      rcases List.mem_cons.mp hmem with rfl | hmem'
      · exact List.mem_cons_self _ _
      · exact List.mem_cons_of_mem _ (ih x b hb hmem')

/-- Claim C2: a bucket flagged idle (because at least one `is_idle = true`
idle sample landed in it) is never merged with a preceding or following
bucket: it appears verbatim in the merged output of `generateWorkblocks` as a
singleton block of its fixed 300-second (single-bucket) duration, regardless
of neighboring categories. -/
theorem idle_bucket_singleton (ps : List Sample) (idles : List IdleSample)
    (b : Bucket) (hmem : b ∈ bucketStage ps idles) (hidle : b.isIdle = true) :
    b ∈ generateWorkblocks ps idles ∧ b.duration = 300 := by
  refine ⟨?_, stage_duration ps idles b hmem⟩
  unfold generateWorkblocks
  rcases hstage : bucketStage ps idles with _ | ⟨c, rest⟩
  · rw [hstage] at hmem; cases hmem
  · rw [hstage] at hmem
    simp only [mergeBlocks]
    exact mergeGo_mem_idle rest c b hidle hmem

/-- Witness for claim C2: one "Code" sample at midnight plus one true idle
sample in the same bucket; the flagged bucket shows up unmerged in the
output. -/
theorem idle_bucket_singleton_witness :
    ((⟨some 0, [⟨"a", some 0, some "Code"⟩], some "Code", 300, true⟩ : Bucket)
        ∈ bucketStage [⟨"a", some 0, some "Code"⟩] [⟨some 0, true⟩]
      ∧ (⟨some 0, [⟨"a", some 0, some "Code"⟩], some "Code", 300, true⟩
          : Bucket).isIdle = true)
    ∧ ((⟨some 0, [⟨"a", some 0, some "Code"⟩], some "Code", 300, true⟩ : Bucket)
        ∈ generateWorkblocks [⟨"a", some 0, some "Code"⟩] [⟨some 0, true⟩]
      ∧ (⟨some 0, [⟨"a", some 0, some "Code"⟩], some "Code", 300, true⟩
          : Bucket).duration = 300) :=
  ⟨by decide,
    idle_bucket_singleton [⟨"a", some 0, some "Code"⟩] [⟨some 0, true⟩]
      ⟨some 0, [⟨"a", some 0, some "Code"⟩], some "Code", 300, true⟩
      (by decide) (by decide)⟩

/-- Claim C10: in the merged block list returned by `generateWorkblocks`,
every pair of adjacent blocks has at least one idle member or differing
categories — the output never contains two consecutive non-idle blocks of the
same category. -/
theorem merged_blocks_maximal (ps : List Sample) (idles : List IdleSample) :
    List.Chain' sepRel (generateWorkblocks ps idles) := by
  unfold generateWorkblocks
  rcases bucketStage ps idles with _ | ⟨b, rest⟩
  · simp [mergeBlocks]
  · simp only [mergeBlocks]
    exact mergeGo_chain rest b

/-- Counterexample to claim C1: two "Code" samples landing in buckets 108
(09:00) and 110 (09:10) with bucket 109 absent produce ONE merged block of
600 seconds spanning the gap — the merge guard of `generateWorkblocks` never
inspects bucket indices, so a missing index does not force a flush. -/
theorem gap_merge_counterexample :
    generateWorkblocks
        [⟨"emacs", some 32400, some "Code"⟩, ⟨"emacs", some 33000, some "Code"⟩]
        []
      = [⟨some 32400,
          [⟨"emacs", some 32400, some "Code"⟩, ⟨"emacs", some 33000, some "Code"⟩],
          some "Code", 600, false⟩]
    ∧ blockKey 32400 = 108 ∧ blockKey 33000 = 110 := by
  decide

/-- Claim C1 amended: a subsequent bucket is merged into the current block
iff its isIdle is false, the current block's isIdle is false, and its
category equals the current block's category — bucket-index adjacency is NOT
required, so two same-category non-idle buckets separated by any number of
missing indices still merge into a single block spanning the gap. -/
theorem merge_ignores_gaps (t₁ t₂ : Nat) (c n₁ n₂ : String)
    (hlt : blockKey t₁ < blockKey t₂) (hc : c ≠ "") :
    generateWorkblocks [⟨n₁, some t₁, some c⟩, ⟨n₂, some t₂, some c⟩] []
      = [⟨some t₁, [⟨n₁, some t₁, some c⟩, ⟨n₂, some t₂, some c⟩],
          some c, 600, false⟩] := by
  have hne : blockKey t₂ ≠ blockKey t₁ := Nat.ne_of_gt hlt
  have hne' : blockKey t₁ ≠ blockKey t₂ := Nat.ne_of_lt hlt
  simp [generateWorkblocks, bucketStage, buildBuckets, buildGo, addSample,
    bucketKey, hasKey, pushSample, newBucket, markIdle, markGo, classifyAll,
    classify, dominantCategory, tally, tallyGo, truthyCat, bump, maxCategory,
    maxCatGo, orderedBuckets, sortByKey, insertByKey, mergeBlocks, mergeGo,
    canMerge, hne, hne', hlt, hc]

/-- Witness for the amended claim C1 at the gapped pair of buckets 108 and
110. -/
theorem merge_ignores_gaps_witness :
    (blockKey 32400 < blockKey 33000 ∧ ("Code" : String) ≠ "")
    ∧ generateWorkblocks
        [⟨"emacs", some 32400, some "Code"⟩, ⟨"vim", some 33000, some "Code"⟩]
        []
      = [⟨some 32400,
          [⟨"emacs", some 32400, some "Code"⟩, ⟨"vim", some 33000, some "Code"⟩],
          some "Code", 600, false⟩] :=
  ⟨⟨by decide, by decide⟩,
    merge_ignores_gaps 32400 33000 "Code" "emacs" "vim" (by decide) (by decide)⟩

/-- The maximum count of a tally. -/
def tallyMax : List (String × Nat) → Nat
  | [] => 0
  | p :: rest => max p.2 (tallyMax rest)

/-- Every tally count is bounded by the maximum. -/
theorem le_tallyMax : ∀ (counts : List (String × Nat)) (p : String × Nat),
    p ∈ counts → p.2 ≤ tallyMax counts := by
  intro counts
  induction counts with
  | nil => intro p hp; cases hp
  | cons q rest ih =>
    intro p hp
    simp only [tallyMax]
    rcases List.mem_cons.mp hp with rfl | hp'
    · exact Nat.le_max_left _ _
    · exact Nat.le_trans (ih p hp') (Nat.le_max_right _ _)

/-- The `count > maxCount` scan never moves off an accumulator that already
dominates every remaining count. -/
theorem maxCatGo_low : ∀ (counts : List (String × Nat)) (m : Nat)
    (mc : Option String), (∀ p ∈ counts, p.2 ≤ m) →
    maxCatGo (m, mc) counts = (m, mc) := by
  intro counts
  induction counts with
  | nil => intro m mc _; rfl
  | cons q rest ih =>
    intro m mc hb
    obtain ⟨c, n⟩ := q
    have hn : n ≤ m := hb (c, n) (List.mem_cons_self _ _)
    simp only [maxCatGo]
    rw [if_neg (by omega : ¬ m < n)]
    exact ih m mc fun p hp => hb p (List.mem_cons_of_mem _ hp)

/-- When some remaining count exceeds the accumulator, the scan ends on the
maximum count, held by the FIRST entry attaining it. -/
theorem maxCatGo_high : ∀ (counts : List (String × Nat)) (m : Nat)
    (mc : Option String), m < tallyMax counts →
    maxCatGo (m, mc) counts
      = (tallyMax counts,
          (counts.find? fun q => q.2 == tallyMax counts).map (·.1)) := by
  intro counts
  induction counts with
  | nil => intro m mc hm; simp [tallyMax] at hm
  | cons q rest ih =>
    intro m mc hm
    obtain ⟨c, n⟩ := q
    simp only [tallyMax] at hm ⊢
    by_cases h₁ : tallyMax rest ≤ n
    · have hMn : max n (tallyMax rest) = n := Nat.max_eq_left h₁
      rw [hMn] at hm ⊢
      simp only [maxCatGo]
      rw [if_pos hm]
      rw [maxCatGo_low rest n (some c)
        (fun p hp => Nat.le_trans (le_tallyMax rest p hp) h₁)]
      rw [List.find?_cons_of_pos _ (by simp)]
      rfl
    · have h₂ : n < tallyMax rest := by omega
      have hMr : max n (tallyMax rest) = tallyMax rest :=
        Nat.max_eq_right (Nat.le_of_lt h₂)
      rw [hMr] at hm ⊢
      rw [List.find?_cons_of_neg _ (by simp; omega)]
      simp only [maxCatGo]
      by_cases h₃ : m < n
      · rw [if_pos h₃]
        exact ih n (some c) h₂
      · rw [if_neg h₃]
        exact ih m mc hm

/-- Counts produced by the tally bump are positive. -/
theorem bump_pos : ∀ (acc : List (String × Nat)) (c : String),
    (∀ p ∈ acc, 0 < p.2) → ∀ p ∈ bump c acc, 0 < p.2 := by
  intro acc
  induction acc with
  | nil =>
    intro c _ p hp
    simp only [bump, List.mem_singleton] at hp
    subst hp; exact Nat.one_pos
  | cons q rest ih =>
    intro c hb p hp
    obtain ⟨d, n⟩ := q
    simp only [bump] at hp
    by_cases hd : d = c
    · rw [if_pos hd] at hp
      rcases List.mem_cons.mp hp with rfl | hp'
      · exact Nat.succ_pos n
      · exact hb p (List.mem_cons_of_mem _ hp')
    · rw [if_neg hd] at hp
      rcases List.mem_cons.mp hp with rfl | hp'
      · exact hb (d, n) (List.mem_cons_self _ _)
      · exact ih c (fun r hr => hb r (List.mem_cons_of_mem _ hr)) p hp'

/-- All counts in a tally are positive. -/
theorem tallyGo_pos : ∀ (ps : List Sample) (acc : List (String × Nat)),
    (∀ p ∈ acc, 0 < p.2) → ∀ p ∈ tallyGo acc ps, 0 < p.2 := by
  intro ps
  induction ps with
  | nil => intro acc h; exact h
  | cons s rest ih =>
    intro acc hacc
    simp only [tallyGo]
    cases htc : truthyCat s.category with
    | none => exact ih acc hacc
    | some c => exact ih (bump c acc) (bump_pos acc c hacc)

/-- Claim C3 amended: the dominant category of a bucket is the category with
the highest tally count, and a tie among categories reaching that count is
broken in favor of the category whose FIRST OCCURRENCE in sample-arrival
order is earliest (the tally is built in first-occurrence order and the
`count > maxCount` scan is strict) — not the first category to REACH the
maximum count; buckets with no truthy-category samples get "Other". -/
theorem tie_break_first_occurrence (ps : List Sample) (p : String × Nat)
    (hfind : (tally ps).find? (fun q => q.2 == tallyMax (tally ps)) = some p) :
    dominantCategory ps = p.1 := by
  have hmem : p ∈ tally ps := List.mem_of_find?_eq_some hfind
  have hpred := List.find?_some hfind
  have hp2 : p.2 = tallyMax (tally ps) := by simpa using hpred
  have hpos : 0 < p.2 := tallyGo_pos ps [] (by simp) p hmem
  have hM : 0 < tallyMax (tally ps) := hp2 ▸ hpos
  unfold dominantCategory maxCategory
  rw [maxCatGo_high (tally ps) 0 none hM]
  rw [hfind]
  rfl

/-- The samples of the classifier tie-break counterexample: categories
B, A, A, B in arrival order. -/
def tieSamples : List Sample :=
  [⟨"p1", some 0, some "B"⟩, ⟨"p2", some 0, some "A"⟩,
   ⟨"p3", some 0, some "A"⟩, ⟨"p4", some 0, some "B"⟩]

/-- Counterexample to claim C3: for samples categorized B, A, A, B the first
category to reach the maximum count 2 is A (at the third sample), but the
code resolves the tie to B, the category that first OCCURS; the claim's own
A, B, A, B example does resolve to A, where the two rules coincide. -/
theorem tie_break_counterexample :
    dominantCategory tieSamples = "B"
    ∧ ("B" : String) ≠ "A"
    ∧ dominantCategory
        [⟨"p1", some 0, some "A"⟩, ⟨"p2", some 0, some "B"⟩,
         ⟨"p3", some 0, some "A"⟩, ⟨"p4", some 0, some "B"⟩] = "A" := by
  decide

/-- Witness for the amended claim C3 on the B, A, A, B bucket: the first
entry of the tally attaining the maximum count 2 is ("B", 2), and the
dominant category is B. -/
theorem tie_break_first_occurrence_witness :
    ((tally tieSamples).find? (fun q => q.2 == tallyMax (tally tieSamples))
        = some ("B", 2))
    ∧ dominantCategory tieSamples = ("B", 2).1 :=
  ⟨by decide, tie_break_first_occurrence tieSamples ("B", 2) (by decide)⟩

/-- Counterexample to claim C4: a sample whose timestamp is unparsable
(Invalid Date, bucket key NaN) is NOT dropped — alone it still yields one
merged block, 300 seconds of workDuration, and a non-empty category
breakdown; no count of dropped records exists anywhere in the pipeline. -/
theorem unparsable_timestamp_counterexample :
    (generateWorkblocks [⟨"ghost", none, some "Code"⟩] []).length = 1
    ∧ (calculateScores
        (generateWorkblocks [⟨"ghost", none, some "Code"⟩] [])).workDuration
        = 300
    ∧ calculateBreakdown [⟨"ghost", none, some "Code"⟩] ≠ [] := by
  decide

/-- Claim C4 amended: a sample with an unparsable timestamp is not dropped
and raises no exception — it is funneled into the single NaN-keyed bucket,
which flows through classification and merging into the output and into the
duration aggregates (and the breakdown never looks at timestamps at all); no
dropped-record count is retained. -/
theorem unparsable_timestamp_not_dropped (n : String) (cat : Option String) :
    generateWorkblocks [⟨n, none, cat⟩] []
      = [⟨none, [⟨n, none, cat⟩], some ((truthyCat cat).getD "Other"),
          300, false⟩]
    ∧ (calculateScores (generateWorkblocks [⟨n, none, cat⟩] [])).workDuration
        = 300 := by
  have h1 : generateWorkblocks [⟨n, none, cat⟩] []
      = [⟨none, [⟨n, none, cat⟩], some ((truthyCat cat).getD "Other"),
          300, false⟩] := by
    cases cat with
    | none =>
      simp [generateWorkblocks, bucketStage, buildBuckets, buildGo, addSample,
        bucketKey, hasKey, pushSample, newBucket, markIdle, markGo,
        classifyAll, classify, dominantCategory, tally, tallyGo, truthyCat,
        bump, maxCategory, maxCatGo, orderedBuckets, sortByKey, insertByKey,
        mergeBlocks, mergeGo, canMerge]
    | some c =>
      by_cases hc : c = "" <;>
        simp [generateWorkblocks, bucketStage, buildBuckets, buildGo,
          addSample, bucketKey, hasKey, pushSample, newBucket, markIdle,
          markGo, classifyAll, classify, dominantCategory, tally, tallyGo,
          truthyCat, bump, maxCategory, maxCatGo, orderedBuckets, sortByKey,
          insertByKey, mergeBlocks, mergeGo, canMerge, hc]
  refine ⟨h1, ?_⟩
  rw [h1]
  rfl

/-- Counterexample to claim C8: a sample with a null category contributes 5
seconds to the "Other" breakdown entry and to the breakdown total
(`process.category || "Other"`), rather than being excluded from both. -/
theorem null_category_counterexample :
    calculateBreakdown [⟨"mystery", some 0, none⟩] = [⟨"Other", 5, 100⟩]
    ∧ breakdownTotal [⟨"mystery", some 0, none⟩] = 5 := by
  decide

/-- Removing samples with falsy categories does not change the classifier
tally. -/
theorem tallyGo_filter_truthy : ∀ (ps : List Sample) (acc : List (String × Nat)),
    tallyGo acc ps
      = tallyGo acc (ps.filter fun s => (truthyCat s.category).isSome) := by
  intro ps
  induction ps with
  | nil => intro acc; rfl
  | cons s rest ih =>
    intro acc
    simp only [List.filter_cons]
    cases htc : truthyCat s.category with
    | none =>
      simp only [tallyGo, htc, Option.isSome_none, Bool.false_eq_true,
        if_false]
      exact ih acc
    | some c =>
      simp only [tallyGo, htc, Option.isSome_some, if_true]
      exact ih (bump c acc)

/-- The `totalTime += 5` fold adds 5 for every sample. -/
theorem foldl_add5 : ∀ (ps : List Sample) (n : Nat),
    ps.foldl (fun n _ => n + 5) n = n + 5 * ps.length := by
  intro ps
  induction ps with
  | nil => intro n; simp
  | cons s rest ih =>
    intro n
    simp only [List.foldl_cons, List.length_cons, ih]
    omega

/-- Claim C8 amended: a sample whose category is null (or empty) is excluded
from the Classifier's per-bucket tally, but it DOES contribute to the
CategoryBreakdown: `calculateBreakdown` maps it to "Other", adding its
5-second quantum both to the "Other" entry and to the total against which
percentages are computed (the total counts every sample). -/
theorem null_category_tally_vs_breakdown (ps : List Sample) :
    tally ps = tally (ps.filter fun s => (truthyCat s.category).isSome)
    ∧ breakdownTotal ps = 5 * ps.length := by
  constructor
  · exact tallyGo_filter_truthy ps []
  · unfold breakdownTotal
    rw [foldl_add5]
    omega

/-- Counterexample to claim C9: on identical merged-block input, two
invocations of the rendering step whose `Math.random()` streams return 0 and
1/2 display different per-block productivity scores (80 vs 90) — the
displayed output is not a function of the Sample/IdleSample input alone. -/
theorem random_score_counterexample :
    updateWorkblocks [⟨some 32400, [], some "Code", 600, false⟩] (fun _ => 0)
      ≠ updateWorkblocks [⟨some 32400, [], some "Code", 600, false⟩]
          (fun _ => (1 : ℚ) / 2) := by
  simp only [updateWorkblocks, updateGo, displayRow]
  intro h
  simp only [if_neg (by decide : ¬ (false = true)), List.cons.injEq,
    DisplayBlock.mk.injEq] at h
  have hs := h.1.2.2.2
  norm_num at hs

/-- The non-score fields of the rendered rows do not depend on the random
stream. -/
theorem updateGo_stripScore (r₁ r₂ : Nat → ℚ) :
    ∀ (blocks : List Bucket) (i j : Nat),
      (updateGo r₁ i blocks).map stripScore
        = (updateGo r₂ j blocks).map stripScore := by
  intro blocks
  induction blocks with
  | nil => intro i j; rfl
  | cons b rest ih =>
    intro i j
    by_cases hb : b.isIdle = true
    · simp only [updateGo, if_pos hb]
      exact ih i j
    · simp only [updateGo, if_neg hb, List.map_cons, List.cons.injEq]
      exact ⟨rfl, ih _ _⟩

/-- Claim C9 amended: the computational pipeline (merged blocks, breakdown,
scores) is a pure function of the Sample/IdleSample arrays, and the rendered
per-block rows are deterministic in every field EXCEPT the productivity
score, which is drawn from `Math.random()` on every invocation. -/
theorem pipeline_deterministic_except_score (ps : List Sample)
    (idles : List IdleSample) (r₁ r₂ : Nat → ℚ) :
    generateWorkblocks ps idles = generateWorkblocks ps idles
    ∧ calculateBreakdown ps = calculateBreakdown ps
    ∧ calculateScores (generateWorkblocks ps idles)
        = calculateScores (generateWorkblocks ps idles)
    ∧ (updateWorkblocks (generateWorkblocks ps idles) r₁).map stripScore
        = (updateWorkblocks (generateWorkblocks ps idles) r₂).map stripScore := by
  refine ⟨rfl, rfl, rfl, ?_⟩
  unfold updateWorkblocks
  exact updateGo_stripScore r₁ r₂ (generateWorkblocks ps idles) 0 0

end PCTT
